import Mathlib

/-!
Verification development for the port-manager engine exposed through
`src/ffi/ffi.h`.  The repository ships only the C declarations of the
boundary (`port_manager_new`, `port_manager_destroy`, `port_manager_add`,
`port_manager_remove`, `last_error_length`, `last_error_message`); the
engine behind them is modelled here from the design specification and from
the header's documentation comments, as executable Lean definitions.
-/

namespace CriPort

/-- A port mapping, mirroring the C struct `PortMapping` of `ffi.h`:
`host_ip` (textual address, empty means any), `host_port`,
`container_port` (16-bit unsigned in C, carried as `Nat`, no arithmetic is
performed on them), and `protocol`. -/
structure PortMapping where
  host_ip : String
  host_port : Nat
  container_port : Nat
  protocol : String
deriving DecidableEq

/-- The host-facing claim of a mapping: the spec declares the
`(host_ip, host_port, protocol)` triple a shared exclusive resource. -/
def triple (m : PortMapping) : String × Nat × String :=
  (m.host_ip, m.host_port, m.protocol)

/-- Modelled from the spec: the Owner Entry of the Port Registry (the
implementation behind `ffi.h` is not in the repository).  It stores the
network name the owner registered under and its mapping set. -/
structure OwnerEntry where
  network : String
  mappings : List PortMapping
deriving DecidableEq

/-- Modelled from the spec: the Registry, a finite map from owner id to
Owner Entry, embedded as an association list. -/
abbrev Registry := List (String × OwnerEntry)

/-- All mappings stored in a registry, across every owner. -/
def allMappings : Registry → List PortMapping
  | [] => []
  | (_, e) :: rest => e.mappings ++ allMappings rest

/-- Number of mappings in a list whose host-facing triple is `t`. -/
def countT (l : List PortMapping) (t : String × Nat × String) : Nat :=
  (l.filter (fun m => decide (triple m = t))).length

/-- Executable check of the global uniqueness invariant: no triple occurs
more than once among all mappings of all owners. -/
def regUniqueB (r : Registry) : Bool :=
  (allMappings r).all (fun m => decide (countT (allMappings r) (triple m) ≤ 1))

/-- The global uniqueness invariant as a proposition over all triples. -/
def regUniqueP (r : Registry) : Prop :=
  ∀ t, countT (allMappings r) t ≤ 1

/-- First owner entry registered under `id`, if any. -/
def findEntry : Registry → String → Option OwnerEntry
  | [], _ => none
  | (i, e) :: rest, id => if i = id then some e else findEntry rest id

/-- Drop every entry registered under `id`. -/
def removeEntry (r : Registry) (id : String) : Registry :=
  r.filter (fun p => decide (p.1 ≠ id))

/-- Modelled from the spec: merging incoming mappings into a mapping set,
keeping entries unique by their full tuple. -/
def mergeMappings (old new : List PortMapping) : List PortMapping :=
  old ++ new.filter (fun m => decide (m ∉ old))

/-- Modelled from the spec: merge the incoming mappings into the Owner
Entry for `id`, creating the entry if absent and combining the network
context. -/
def addEntry : Registry → String → String → List PortMapping → Registry
  | [], id, net, ms => [(id, ⟨net, ms⟩)]
  | (i, e) :: rest, id, net, ms =>
    if i = id then (i, ⟨net, mergeMappings e.mappings ms⟩) :: rest
    else (i, e) :: addEntry rest id net ms

/-- Modelled from the spec: the closed set of recognized protocols. -/
def recognizedProtocols : List String := ["tcp", "udp"]

/-- Modelled from the spec: a single mapping is well formed when its
protocol is recognized and both ports are nonzero. -/
def validMapping (m : PortMapping) : Bool :=
  decide (m.protocol ∈ recognizedProtocols) &&
    decide (m.host_port ≠ 0) && decide (m.container_port ≠ 0)

/-- Modelled from the spec: input validation of `add` — nonempty id,
nonempty network, nonempty mapping list, every mapping well formed. -/
def validInput (id network : String) (ms : List PortMapping) : Bool :=
  decide (id ≠ "") && decide (network ≠ "") && decide (ms ≠ []) &&
    ms.all validMapping

/-- Does `m` claim a triple already claimed by some mapping of `l`? -/
def conflictsWith (m : PortMapping) (l : List PortMapping) : Bool :=
  l.any (fun m2 => decide (triple m2 = triple m))

/-- Modelled from the spec: the dry-run conflict check of `add`.  Each
incoming mapping is checked against every mapping already registered for
any owner and against the earlier incoming mappings, so that the global
uniqueness of host-facing triples is preserved.  Returns the first
conflicting mapping, if any. -/
def findConflict (acc : List PortMapping) : List PortMapping → Option PortMapping
  | [] => none
  | m :: rest =>
    if conflictsWith m acc then some m else findConflict (m :: acc) rest

/-- Failure taxonomy of the engine, from the spec. -/
inductive PMError where
  | invalidInput
  | conflict
  | persistence
  | corrupt
deriving DecidableEq

/-- Modelled from the spec: the engine state behind the opaque
`port_manager` handle — the live in-memory registry, the snapshot held by
the Mapping Store at the storage location, and the number of `persist`
calls the engine has issued. -/
structure Engine where
  registry : Registry
  stored : Registry
  persists : Nat
deriving DecidableEq

/-- Modelled from the spec: one `persist` call after an in-memory
mutation to `newReg`.  The environment decides whether the durable write
succeeds (`ok`); on failure the in-memory mutation is rolled back and the
operation reports a `persistence` failure. -/
def persistReg (e : Engine) (ok : Bool) (newReg : Registry) : Option PMError × Engine :=
  if ok then (none, ⟨newReg, newReg, e.persists + 1⟩)
  else (some PMError.persistence, ⟨e.registry, e.stored, e.persists + 1⟩)

/-- Modelled from the spec: `port_manager_new` (declared at
`ffi.h:76`).  The storage location either holds no persisted state
(`none`, initialized as an empty registry) or a persisted snapshot, which
is adopted after defensively re-validating the global uniqueness
invariant; a snapshot violating it is surfaced as `corrupt`. -/
def port_manager_new (storage : Option Registry) : Except PMError Engine :=
  match storage with
  | none => Except.ok ⟨[], [], 0⟩
  | some s => if regUniqueB s then Except.ok ⟨s, s, 0⟩ else Except.error PMError.corrupt

/-- Modelled from the spec: `port_manager_add` (declared at
`ffi.h:88`).  Validate, dry-run conflict check, merge into the owner
entry, persist; the extra `persistOk` argument is the environment's verdict
on the durable write.  Returns the outcome and the engine state after the
call (unchanged on validation or conflict failure, rolled back on
persistence failure). -/
def port_manager_add (e : Engine) (id network : String) (ms : List PortMapping)
    (persistOk : Bool) : Option PMError × Engine :=
  if validInput id network ms then
    match findConflict (allMappings e.registry) ms with
    | some _ => (some PMError.conflict, e)
    | none => persistReg e persistOk (addEntry e.registry id network ms)
  else (some PMError.invalidInput, e)

/-- Modelled from the spec: `port_manager_remove` (declared at
`ffi.h:97`).  Removing an id with no owner entry is a no-op success;
otherwise the entry is deleted and the registry persisted, rolling the
deletion back if the durable write fails. -/
def port_manager_remove (e : Engine) (id : String) (persistOk : Bool) :
    Option PMError × Engine :=
  match findEntry e.registry id with
  | none => (none, e)
  | some _ => persistReg e persistOk (removeEntry e.registry id)

/-- Modelled from the spec: `port_manager_destroy` (declared at
`ffi.h:82`).  It returns no value; releasing the engine's resources may
fail, in which case the failure message is recorded in the calling
thread's last-error slot.  The slot is threaded explicitly. -/
def port_manager_destroy (slot : Option String) (cleanupOk : Bool) (msg : String) :
    Unit × Option String :=
  if cleanupOk then ((), slot) else ((), some msg)

/-- Modelled from the spec: `last_error_length` (declared at
`ffi.h:49`).  Byte length of the calling thread's stored message
including the trailing null character, `0` when no message is stored. -/
def last_error_length (slot : Option String) : Int :=
  match slot with
  | none => 0
  | some s => (s.utf8ByteSize : Int) + 1

/-- Modelled from the spec: `last_error_message` (declared at
`ffi.h:64`).  Returns the status code (bytes written, `0` when no message
is stored, `-1` on a null buffer or insufficient capacity), the bytes
written into the caller buffer, and the slot after the call — a read
never clears the slot. -/
def last_error_message (slot : Option String) (bufValid : Bool) (capacity : Int) :
    Int × Option String × Option String :=
  match slot with
  | none => (0, none, slot)
  | some s =>
    if bufValid && decide ((s.utf8ByteSize : Int) + 1 ≤ capacity) then
      ((s.utf8ByteSize : Int) + 1, some s, slot)
    else (-1, none, slot)

/-- One successful-or-failing `add` call: arguments plus the
environment's persistence verdict. -/
structure AddCall where
  id : String
  network : String
  mappings : List PortMapping
  persistOk : Bool
deriving DecidableEq

/-- Run a sequence of `add` calls, requiring every call to succeed. -/
def runAdds (e : Engine) : List AddCall → Option Engine
  | [] => some e
  | c :: cs =>
    match port_manager_add e c.id c.network c.mappings c.persistOk with
    | (none, e2) => runAdds e2 cs
    | (some _, _) => none

/-- A boundary call that mutates the registry. -/
inductive Call where
  | add (id network : String) (mappings : List PortMapping) (persistOk : Bool)
  | remove (id : String) (persistOk : Bool)
deriving DecidableEq

/-- Run a sequence of `add` and `remove` calls, requiring every call to
succeed. -/
def runCalls (e : Engine) : List Call → Option Engine
  | [] => some e
  | Call.add id net ms pOk :: cs =>
    match port_manager_add e id net ms pOk with
    | (none, e2) => runCalls e2 cs
    | (some _, _) => none
  | Call.remove id pOk :: cs =>
    match port_manager_remove e id pOk with
    | (none, e2) => runCalls e2 cs
    | (some _, _) => none

/-- The engine's internal consistency: the persisted snapshot agrees with
the live registry and the registry satisfies the global uniqueness
invariant. -/
def StateOk (e : Engine) : Prop :=
  e.stored = e.registry ∧ regUniqueP e.registry

/-- Two owner entries are equivalent when they carry the same network name
and the same set of mappings, independent of order. -/
def entryEquiv (a b : OwnerEntry) : Prop :=
  a.network = b.network ∧ ∀ m, m ∈ a.mappings ↔ m ∈ b.mappings

/-- Lift entry equivalence to optional lookup results. -/
def optEntryEquiv : Option OwnerEntry → Option OwnerEntry → Prop
  | none, none => True
  | some a, some b => entryEquiv a b
  | _, _ => False

/-- Two registries are equivalent when they register the same owners,
each with an equivalent entry — the order-independent reading of
registry equality. -/
def regEquiv (r1 r2 : Registry) : Prop :=
  ∀ id, optEntryEquiv (findEntry r1 id) (findEntry r2 id)

/-- A sample mapping used to instantiate the theorems below. -/
def sampleA : PortMapping := ⟨"0.0.0.0", 8080, 80, "tcp"⟩

/-- Same host-facing triple as `sampleA`, different container port. -/
def sampleB : PortMapping := ⟨"0.0.0.0", 8080, 81, "tcp"⟩

/-- A mapping whose triple clashes with nothing else used here. -/
def sampleC : PortMapping := ⟨"0.0.0.0", 9090, 90, "udp"⟩

/-- The engine produced by creating a manager at an empty location. -/
def engine0 : Engine := ⟨[], [], 0⟩

/-- The engine after a single successful add of `sampleA` for `web`. -/
def engineW : Engine :=
  ⟨[("web", ⟨"bridge0", [sampleA]⟩)], [("web", ⟨"bridge0", [sampleA]⟩)], 1⟩

/-! ### Counting lemmas -/

theorem countT_eq_countP (l : List PortMapping) (t : String × Nat × String) :
    countT l t = l.countP (fun m => decide (triple m = t)) :=
  (List.countP_eq_length_filter _ _).symm

theorem countT_nil (t : String × Nat × String) : countT [] t = 0 := rfl

theorem countT_append (a b : List PortMapping) (t : String × Nat × String) :
    countT (a ++ b) t = countT a t + countT b t := by
  simp [countT_eq_countP, List.countP_append]

theorem countT_cons (m : PortMapping) (l : List PortMapping) (t : String × Nat × String) :
    countT (m :: l) t = countT l t + (if triple m = t then 1 else 0) := by
  simp only [countT_eq_countP, List.countP_cons]
  by_cases h : triple m = t <;> simp [h]

theorem countT_pos_iff (l : List PortMapping) (t : String × Nat × String) :
    0 < countT l t ↔ ∃ m ∈ l, triple m = t := by
  rw [countT_eq_countP, List.countP_pos_iff]
  simp

theorem countT_pos_of_mem {l : List PortMapping} {m : PortMapping} (h : m ∈ l) :
    0 < countT l (triple m) :=
  (countT_pos_iff l (triple m)).2 ⟨m, h, rfl⟩

theorem conflictsWith_eq_false_iff (m : PortMapping) (l : List PortMapping) :
    conflictsWith m l = false ↔ countT l (triple m) = 0 := by
  constructor
  · intro h
    by_contra hne
    have hpos : 0 < countT l (triple m) := Nat.pos_of_ne_zero hne
    obtain ⟨m2, hm2, ht⟩ := (countT_pos_iff l (triple m)).1 hpos
    have : conflictsWith m l = true := by
      simp only [conflictsWith, List.any_eq_true]
      exact ⟨m2, hm2, by simp [ht]⟩
    simp [this] at h
  · intro h
    by_contra hne
    have htrue : conflictsWith m l = true := by
      cases hb : conflictsWith m l
      · simp [hb] at hne
      · rfl
    simp only [conflictsWith, List.any_eq_true] at htrue
    obtain ⟨m2, hm2, ht⟩ := htrue
    have ht2 : triple m2 = triple m := by simpa using ht
    have : 0 < countT l (triple m) := (countT_pos_iff l (triple m)).2 ⟨m2, hm2, ht2⟩
    omega

/-! ### Conflict-check characterization -/

theorem bool_not_true_eq_false {b : Bool} (h : ¬ b = true) : b = false := by
  cases b
  · rfl
  · exact absurd rfl h

theorem findConflict_none_counts (ms : List PortMapping) :
    ∀ acc, findConflict acc ms = none →
      ∀ t, countT ms t ≠ 0 → countT acc t = 0 ∧ countT ms t = 1 := by
  induction ms with
  | nil =>
    intro acc _ t hne
    simp [countT_nil] at hne
  | cons m rest ih =>
    intro acc h t hne
    simp only [findConflict] at h
    by_cases hc : conflictsWith m acc = true
    · simp [hc] at h
    · have hcf : conflictsWith m acc = false := bool_not_true_eq_false hc
      simp only [hcf, Bool.false_eq_true, if_false] at h
      have hacc0 : countT acc (triple m) = 0 := (conflictsWith_eq_false_iff m acc).1 hcf
      by_cases ht : triple m = t
      · subst ht
        refine ⟨hacc0, ?_⟩
        by_cases hr : countT rest (triple m) = 0
        · rw [countT_cons]
          simp [hr]
        · have hih := ih (m :: acc) h (triple m) hr
          rw [countT_cons] at hih
          simp at hih
      · rw [countT_cons, if_neg ht] at hne ⊢
        have hne2 : countT rest t ≠ 0 := by omega
        have hih := ih (m :: acc) h t hne2
        rw [countT_cons, if_neg ht] at hih
        constructor
        · omega
        · omega

theorem findConflict_isSome_clash (ms : List PortMapping) :
    ∀ acc, findConflict acc ms ≠ none →
      (∃ m ∈ ms, 0 < countT acc (triple m)) ∨ (∃ t, 2 ≤ countT ms t) := by
  induction ms with
  | nil =>
    intro acc h
    simp [findConflict] at h
  | cons m rest ih =>
    intro acc h
    simp only [findConflict] at h
    by_cases hc : conflictsWith m acc = true
    · left
      refine ⟨m, by simp, ?_⟩
      by_contra hle
      have h0 : countT acc (triple m) = 0 := by omega
      have := (conflictsWith_eq_false_iff m acc).2 h0
      rw [this] at hc
      simp at hc
    · have hcf : conflictsWith m acc = false := bool_not_true_eq_false hc
      simp only [hcf, Bool.false_eq_true, if_false] at h
      rcases ih (m :: acc) h with ⟨m2, hm2, hpos⟩ | ⟨t, ht⟩
      · rw [countT_cons] at hpos
        by_cases he : triple m = triple m2
        · right
          refine ⟨triple m, ?_⟩
          rw [countT_cons, if_pos rfl]
          have : 0 < countT rest (triple m) := by
            rw [he]
            exact countT_pos_of_mem hm2
          omega
        · left
          refine ⟨m2, List.mem_cons_of_mem m hm2, ?_⟩
          rw [if_neg he] at hpos
          omega
      · right
        refine ⟨t, ?_⟩
        rw [countT_cons]
        omega

theorem findConflict_none_iff (acc ms : List PortMapping) :
    findConflict acc ms = none ↔
      ¬ ((∃ m ∈ ms, 0 < countT acc (triple m)) ∨ (∃ t, 2 ≤ countT ms t)) := by
  constructor
  · intro h hclash
    rcases hclash with ⟨m, hm, hpos⟩ | ⟨t, ht⟩
    · have hne : countT ms (triple m) ≠ 0 := by
        have := countT_pos_of_mem hm
        omega
      have := (findConflict_none_counts ms acc h (triple m) hne).1
      omega
    · have hne : countT ms t ≠ 0 := by omega
      have := (findConflict_none_counts ms acc h t hne).2
      omega
  · intro h
    by_contra hne
    exact h (findConflict_isSome_clash ms acc hne)

/-! ### Registry surgery lemmas -/

theorem allMappings_cons (i : String) (e : OwnerEntry) (rest : Registry) :
    allMappings ((i, e) :: rest) = e.mappings ++ allMappings rest := rfl

theorem countT_addEntry (r : Registry) (id net : String) (ms : List PortMapping)
    (h : ∀ m ∈ ms, countT (allMappings r) (triple m) = 0) (t : String × Nat × String) :
    countT (allMappings (addEntry r id net ms)) t = countT (allMappings r) t + countT ms t := by
  induction r with
  | nil =>
    simp [addEntry, allMappings, countT_append, countT_nil]
  | cons p rest ih =>
    obtain ⟨i, e⟩ := p
    by_cases hi : i = id
    · rw [addEntry, if_pos hi, allMappings_cons, allMappings_cons, countT_append, countT_append]
      have hfil : ms.filter (fun m => decide (m ∉ e.mappings)) = ms := by
        rw [List.filter_eq_self]
        intro m hm
        simp only [decide_eq_true_iff]
        intro hmem
        have h0 := h m hm
        rw [allMappings_cons, countT_append] at h0
        have hpos : 0 < countT e.mappings (triple m) := countT_pos_of_mem hmem
        omega
      show countT (mergeMappings e.mappings ms) t + countT (allMappings rest) t = _
      rw [mergeMappings, hfil, countT_append]
      omega
    · rw [addEntry, if_neg hi, allMappings_cons, allMappings_cons, countT_append, countT_append]
      have hrest : ∀ m ∈ ms, countT (allMappings rest) (triple m) = 0 := by
        intro m hm
        have h0 := h m hm
        rw [allMappings_cons, countT_append] at h0
        omega
      rw [ih hrest]
      omega

theorem removeEntry_nil (id : String) : removeEntry [] id = [] := rfl

theorem removeEntry_cons_self (i : String) (e : OwnerEntry) (rest : Registry) (id : String)
    (hi : i = id) : removeEntry ((i, e) :: rest) id = removeEntry rest id := by
  simp [removeEntry, List.filter_cons, hi]

theorem removeEntry_cons_ne (i : String) (e : OwnerEntry) (rest : Registry) (id : String)
    (hi : ¬ i = id) : removeEntry ((i, e) :: rest) id = (i, e) :: removeEntry rest id := by
  simp [removeEntry, List.filter_cons, hi]

theorem countT_removeEntry_le (r : Registry) (id : String) (t : String × Nat × String) :
    countT (allMappings (removeEntry r id)) t ≤ countT (allMappings r) t := by
  induction r with
  | nil =>
    simp [removeEntry_nil]
  | cons p rest ih =>
    obtain ⟨i, e⟩ := p
    by_cases hi : i = id
    · rw [removeEntry_cons_self i e rest id hi, allMappings_cons, countT_append]
      exact le_trans ih (Nat.le_add_left _ _)
    · rw [removeEntry_cons_ne i e rest id hi, allMappings_cons, allMappings_cons,
        countT_append, countT_append]
      exact Nat.add_le_add_left ih _

theorem removeEntry_addEntry (r : Registry) (id net : String) (ms : List PortMapping) :
    removeEntry (addEntry r id net ms) id = removeEntry r id := by
  induction r with
  | nil =>
    rw [show addEntry [] id net ms = [(id, ⟨net, ms⟩)] from rfl,
      removeEntry_cons_self id ⟨net, ms⟩ [] id rfl]
  | cons p rest ih =>
    obtain ⟨i, e⟩ := p
    by_cases hi : i = id
    · rw [addEntry, if_pos hi,
        removeEntry_cons_self i ⟨net, mergeMappings e.mappings ms⟩ rest id hi,
        removeEntry_cons_self i e rest id hi]
    · rw [addEntry, if_neg hi,
        removeEntry_cons_ne i e (addEntry rest id net ms) id hi,
        removeEntry_cons_ne i e rest id hi, ih]

theorem findEntry_addEntry (r : Registry) (id net : String) (ms : List PortMapping) :
    findEntry (addEntry r id net ms) id ≠ none := by
  induction r with
  | nil =>
    simp [addEntry, findEntry]
  | cons p rest ih =>
    obtain ⟨i, e⟩ := p
    by_cases hi : i = id
    · rw [addEntry, if_pos hi, findEntry, if_pos hi]
      simp
    · rw [addEntry, if_neg hi, findEntry, if_neg hi]
      exact ih

/-! ### The uniqueness invariant -/

theorem regUniqueB_iff (r : Registry) : regUniqueB r = true ↔ regUniqueP r := by
  constructor
  · intro h t
    by_cases hz : countT (allMappings r) t = 0
    · omega
    · have hpos : 0 < countT (allMappings r) t := Nat.pos_of_ne_zero hz
      obtain ⟨m, hm, ht⟩ := (countT_pos_iff _ t).1 hpos
      rw [regUniqueB, List.all_eq_true] at h
      have := h m hm
      rw [decide_eq_true_iff] at this
      rw [← ht]
      exact this
  · intro h
    rw [regUniqueB, List.all_eq_true]
    intro m _
    rw [decide_eq_true_iff]
    exact h (triple m)

theorem regUniqueP_addEntry {r : Registry} {id net : String} {ms : List PortMapping}
    (hu : regUniqueP r) (hfc : findConflict (allMappings r) ms = none) :
    regUniqueP (addEntry r id net ms) := by
  intro t
  have hzero : ∀ m ∈ ms, countT (allMappings r) (triple m) = 0 := by
    intro m hm
    have hpos := countT_pos_of_mem hm
    exact (findConflict_none_counts ms _ hfc (triple m) (by omega)).1
  rw [countT_addEntry r id net ms hzero t]
  by_cases hz : countT ms t = 0
  · have := hu t
    omega
  · have h1 := (findConflict_none_counts ms _ hfc t hz).1
    have h2 := (findConflict_none_counts ms _ hfc t hz).2
    omega

theorem regUniqueP_removeEntry {r : Registry} (id : String) (hu : regUniqueP r) :
    regUniqueP (removeEntry r id) := by
  intro t
  exact le_trans (countT_removeEntry_le r id t) (hu t)

theorem regEquiv_refl (r : Registry) : regEquiv r r := by
  intro id
  cases findEntry r id with
  | none => trivial
  | some a => exact ⟨rfl, fun m => Iff.rfl⟩

/-! ### Engine-level case analyses -/

theorem add_success_elim {e : Engine} {id net : String} {ms : List PortMapping} {pOk : Bool}
    {e2 : Engine} (h : port_manager_add e id net ms pOk = (none, e2)) :
    validInput id net ms = true ∧ findConflict (allMappings e.registry) ms = none ∧
      pOk = true ∧
      e2 = ⟨addEntry e.registry id net ms, addEntry e.registry id net ms, e.persists + 1⟩ := by
  by_cases hv : validInput id net ms = true
  · rw [port_manager_add, if_pos hv] at h
    cases hfc : findConflict (allMappings e.registry) ms with
    | some m =>
      rw [hfc] at h
      simp at h
    | none =>
      rw [hfc, persistReg] at h
      by_cases hp : pOk = true
      · rw [if_pos hp] at h
        have h2 := congrArg Prod.snd h
        simp only at h2
        exact ⟨hv, rfl, hp, h2.symm⟩
      · rw [if_neg hp] at h
        simp at h
  · rw [port_manager_add, if_neg hv] at h
    simp at h

theorem remove_success_elim {e : Engine} {id : String} {pOk : Bool} {e2 : Engine}
    (h : port_manager_remove e id pOk = (none, e2)) :
    (findEntry e.registry id = none ∧ e2 = e) ∨
      (findEntry e.registry id ≠ none ∧ pOk = true ∧
        e2 = ⟨removeEntry e.registry id, removeEntry e.registry id, e.persists + 1⟩) := by
  cases hf : findEntry e.registry id with
  | none =>
    left
    rw [port_manager_remove, hf] at h
    have h2 := congrArg Prod.snd h
    simp only at h2
    exact ⟨rfl, h2.symm⟩
  | some entry =>
    right
    rw [port_manager_remove, hf, persistReg] at h
    by_cases hp : pOk = true
    · rw [if_pos hp] at h
      have h2 := congrArg Prod.snd h
      simp only at h2
      exact ⟨by simp, hp, h2.symm⟩
    · rw [if_neg hp] at h
      simp at h

theorem stateOk_new {storage : Option Registry} {e : Engine}
    (h : port_manager_new storage = Except.ok e) : StateOk e := by
  cases storage with
  | none =>
    rw [port_manager_new] at h
    have he : e = ⟨[], [], 0⟩ := by
      cases h
      rfl
    subst he
    exact ⟨rfl, fun t => by simp [allMappings, countT_nil]⟩
  | some s =>
    rw [port_manager_new] at h
    by_cases hb : regUniqueB s = true
    · rw [if_pos hb] at h
      have he : e = ⟨s, s, 0⟩ := by
        cases h
        rfl
      subst he
      exact ⟨rfl, (regUniqueB_iff s).1 hb⟩
    · rw [if_neg hb] at h
      cases h

theorem stateOk_add {e e2 : Engine} {id net : String} {ms : List PortMapping} {pOk : Bool}
    (hok : StateOk e) (h : port_manager_add e id net ms pOk = (none, e2)) : StateOk e2 := by
  obtain ⟨-, hfc, -, he2⟩ := add_success_elim h
  subst he2
  exact ⟨rfl, regUniqueP_addEntry hok.2 hfc⟩

theorem stateOk_remove {e e2 : Engine} {id : String} {pOk : Bool}
    (hok : StateOk e) (h : port_manager_remove e id pOk = (none, e2)) : StateOk e2 := by
  rcases remove_success_elim h with ⟨-, he2⟩ | ⟨-, -, he2⟩
  · subst he2
    exact hok
  · subst he2
    exact ⟨rfl, regUniqueP_removeEntry id hok.2⟩

theorem stateOk_runAdds {calls : List AddCall} :
    ∀ {e e2 : Engine}, StateOk e → runAdds e calls = some e2 → StateOk e2 := by
  induction calls with
  | nil =>
    intro e e2 hok h
    rw [runAdds] at h
    cases h
    exact hok
  | cons c cs ih =>
    intro e e2 hok h
    rw [runAdds] at h
    cases hstep : port_manager_add e c.id c.network c.mappings c.persistOk with
    | mk res e1 =>
      rw [hstep] at h
      cases res with
      | none => exact ih (stateOk_add hok hstep) h
      | some err => simp at h

theorem stateOk_runCalls {calls : List Call} :
    ∀ {e e2 : Engine}, StateOk e → runCalls e calls = some e2 → StateOk e2 := by
  induction calls with
  | nil =>
    intro e e2 hok h
    rw [runCalls] at h
    cases h
    exact hok
  | cons c cs ih =>
    intro e e2 hok h
    cases c with
    | add id net ms pOk =>
      rw [runCalls] at h
      cases hstep : port_manager_add e id net ms pOk with
      | mk res e1 =>
        rw [hstep] at h
        cases res with
        | none => exact ih (stateOk_add hok hstep) h
        | some err => simp at h
    | remove id pOk =>
      rw [runCalls] at h
      cases hstep : port_manager_remove e id pOk with
      | mk res e1 =>
        rw [hstep] at h
        cases res with
        | none => exact ih (stateOk_remove hok hstep) h
        | some err => simp at h

theorem add_failed_elim {e e2 : Engine} {id net : String} {ms : List PortMapping}
    {pOk : Bool} {err : PMError}
    (h : port_manager_add e id net ms pOk = (some err, e2)) :
    (err = PMError.invalidInput ∧ e2 = e) ∨ (err = PMError.conflict ∧ e2 = e) ∨
      (err = PMError.persistence ∧ pOk = false ∧
        e2 = ⟨e.registry, e.stored, e.persists + 1⟩) := by
  by_cases hv : validInput id net ms = true
  · rw [port_manager_add, if_pos hv] at h
    cases hfc : findConflict (allMappings e.registry) ms with
    | some m =>
      rw [hfc] at h
      simp only [Prod.mk.injEq, Option.some.injEq] at h
      right
      left
      exact ⟨h.1.symm, h.2.symm⟩
    | none =>
      rw [hfc, persistReg] at h
      by_cases hp : pOk = true
      · rw [if_pos hp] at h
        simp at h
      · rw [if_neg hp] at h
        simp only [Prod.mk.injEq, Option.some.injEq] at h
        right
        right
        exact ⟨h.1.symm, bool_not_true_eq_false hp, h.2.symm⟩
  · rw [port_manager_add, if_neg hv] at h
    simp only [Prod.mk.injEq, Option.some.injEq] at h
    left
    exact ⟨h.1.symm, h.2.symm⟩

theorem remove_failed_elim {e e2 : Engine} {id : String} {pOk : Bool} {err : PMError}
    (h : port_manager_remove e id pOk = (some err, e2)) :
    err = PMError.persistence ∧ pOk = false ∧ findEntry e.registry id ≠ none ∧
      e2 = ⟨e.registry, e.stored, e.persists + 1⟩ := by
  cases hf : findEntry e.registry id with
  | none =>
    rw [port_manager_remove, hf] at h
    simp at h
  | some entry =>
    rw [port_manager_remove, hf, persistReg] at h
    by_cases hp : pOk = true
    · rw [if_pos hp] at h
      simp at h
    · rw [if_neg hp] at h
      simp only [Prod.mk.injEq, Option.some.injEq] at h
      exact ⟨h.1.symm, bool_not_true_eq_false hp, by simp, h.2.symm⟩

/-! ### The claims -/

/-- C1: after any sequence of successful `add` calls on one engine
instance obtained from `port_manager_new`, no two mappings stored in the
registry — including mappings belonging to two different owner ids —
share the same `(host_ip, host_port, protocol)` triple: every triple is
claimed by at most one stored mapping. -/
theorem add_sequences_preserve_port_uniqueness
    {storage : Option Registry} {e e2 : Engine} {calls : List AddCall}
    (hnew : port_manager_new storage = Except.ok e)
    (hrun : runAdds e calls = some e2) :
    regUniqueB e2.registry = true ∧ ∀ t, countT (allMappings e2.registry) t ≤ 1 := by
  have hok := stateOk_runAdds (stateOk_new hnew) hrun
  exact ⟨(regUniqueB_iff _).2 hok.2, hok.2⟩

/-- Witness for C1 at a concrete two-call sequence adding `sampleA` for
`web` and `sampleC` for `api` on a freshly created engine. -/
theorem add_sequences_preserve_port_uniqueness_witness :
    regUniqueB
      (⟨[("web", ⟨"bridge0", [sampleA]⟩), ("api", ⟨"bridge0", [sampleC]⟩)],
        [("web", ⟨"bridge0", [sampleA]⟩), ("api", ⟨"bridge0", [sampleC]⟩)], 2⟩ :
        Engine).registry = true :=
  (@add_sequences_preserve_port_uniqueness none engine0
      ⟨[("web", ⟨"bridge0", [sampleA]⟩), ("api", ⟨"bridge0", [sampleC]⟩)],
        [("web", ⟨"bridge0", [sampleA]⟩), ("api", ⟨"bridge0", [sampleC]⟩)], 2⟩
      [⟨"web", "bridge0", [sampleA], true⟩, ⟨"api", "bridge0", [sampleC], true⟩]
      rfl (by decide)).1

/-- C2: an `add` call that fails — for any reason: invalid input, a
conflict on any one of its mappings, or a persistence failure — leaves
both the in-memory registry and the persisted store exactly as they were
before the call; no subset of the submitted mappings is applied. -/
theorem add_failure_leaves_state_unchanged
    {e e2 : Engine} {id net : String} {ms : List PortMapping} {pOk : Bool} {err : PMError}
    (h : port_manager_add e id net ms pOk = (some err, e2)) :
    e2.registry = e.registry ∧ e2.stored = e.stored := by
  by_cases hv : validInput id net ms = true
  · rw [port_manager_add, if_pos hv] at h
    cases hfc : findConflict (allMappings e.registry) ms with
    | some m =>
      rw [hfc] at h
      have h2 := congrArg Prod.snd h
      simp only at h2
      rw [← h2]
      exact ⟨rfl, rfl⟩
    | none =>
      rw [hfc, persistReg] at h
      by_cases hp : pOk = true
      · rw [if_pos hp] at h
        simp at h
      · rw [if_neg hp] at h
        have h2 := congrArg Prod.snd h
        simp only at h2
        rw [← h2]
        exact ⟨rfl, rfl⟩
  · rw [port_manager_add, if_neg hv] at h
    have h2 := congrArg Prod.snd h
    simp only at h2
    rw [← h2]
    exact ⟨rfl, rfl⟩

/-- Witness for C2: a conflicting add against the one-owner engine
`engineW` fails and leaves registry and store unchanged. -/
theorem add_failure_leaves_state_unchanged_witness :
    (port_manager_add engineW "api" "bridge0" [sampleB] true).2.registry =
        engineW.registry ∧
      (port_manager_add engineW "api" "bridge0" [sampleB] true).2.stored =
        engineW.stored :=
  @add_failure_leaves_state_unchanged engineW
    (port_manager_add engineW "api" "bridge0" [sampleB] true).2
    "api" "bridge0" [sampleB] true PMError.conflict (by decide)

/-- C3: removing an owner id with no Owner Entry — never added, or
already removed — is a no-op success for every registry state and every
persistence verdict: it returns success and leaves the whole engine state
unchanged. -/
theorem remove_absent_id_is_noop_success
    {e : Engine} {id : String} (pOk : Bool) (h : findEntry e.registry id = none) :
    port_manager_remove e id pOk = (none, e) := by
  rw [port_manager_remove, h]

/-- Witness for C3: removing an unknown id from a fresh engine, even with
a failing store, succeeds and changes nothing. -/
theorem remove_absent_id_is_noop_success_witness :
    port_manager_remove engine0 "anything" false = (none, engine0) :=
  @remove_absent_id_is_noop_success engine0 "anything" false rfl

/-- C4: after any sequence of successful `add` and `remove` calls on an
engine created against a storage location, recreating an engine from the
snapshot that location holds at destruction time succeeds and reproduces
a registry equivalent — same owners, each with the same network and the
same set of mappings, independent of order — to the registry at
destruction time (`port_manager_destroy` itself does not touch the
store). -/
theorem persistence_round_trip
    {storage : Option Registry} {e e2 : Engine} {calls : List Call}
    (hnew : port_manager_new storage = Except.ok e)
    (hrun : runCalls e calls = some e2) :
    port_manager_new (some e2.stored) = Except.ok ⟨e2.stored, e2.stored, 0⟩ ∧
      regEquiv e2.stored e2.registry := by
  obtain ⟨hst, hu⟩ := stateOk_runCalls (stateOk_new hnew) hrun
  constructor
  · have hb : regUniqueB e2.stored = true := by
      rw [hst]
      exact (regUniqueB_iff _).2 hu
    rw [port_manager_new, if_pos hb]
  · rw [hst]
    exact regEquiv_refl _

/-- Witness for C4 at a concrete run: create at an empty location, add
`web`, remove it, add `api`; recreating from the persisted snapshot
succeeds and yields an equivalent registry. -/
theorem persistence_round_trip_witness :
    port_manager_new (some ([("api", ⟨"bridge0", [sampleC]⟩)] : Registry)) =
      Except.ok ⟨[("api", ⟨"bridge0", [sampleC]⟩)], [("api", ⟨"bridge0", [sampleC]⟩)], 0⟩ :=
  (@persistence_round_trip none engine0
      ⟨[("api", ⟨"bridge0", [sampleC]⟩)], [("api", ⟨"bridge0", [sampleC]⟩)], 3⟩
      [Call.add "web" "bridge0" [sampleA] true, Call.remove "web" true,
        Call.add "api" "bridge0" [sampleC] true]
      rfl (by decide)).1

/-- C5 counterexample: `add` can report `Conflict` although no incoming
mapping matches any mapping already registered for any owner — on the
empty registry, a single call whose own list claims the triple
`("0.0.0.0", 8080, tcp)` twice (through `sampleA` and `sampleB`) is
rejected with `Conflict` even though nothing at all is registered. -/
theorem conflict_reported_without_registered_match :
    (port_manager_add engine0 "web" "bridge0" [sampleA, sampleB] true).1 =
        some PMError.conflict ∧
      allMappings engine0.registry = [] := by
  constructor
  · decide
  · rfl

/-- C5 (amended): `add` fails with `InvalidInput` and performs no
mutation whenever validation fails (empty id, empty network, empty
mapping list, unrecognized protocol, or a zero host or container port);
and for inputs that pass validation, `add` reports `Conflict` exactly
when some incoming mapping's triple matches a mapping already registered
for any owner, or two positions of the submitted list itself claim the
same triple. -/
theorem add_validation_and_conflict_reporting
    (e : Engine) (id net : String) (ms : List PortMapping) (pOk : Bool) :
    (validInput id net ms = false →
      port_manager_add e id net ms pOk = (some PMError.invalidInput, e)) ∧
    (validInput id net ms = true →
      ((port_manager_add e id net ms pOk).1 = some PMError.conflict ↔
        (∃ m ∈ ms, ∃ m2 ∈ allMappings e.registry, triple m2 = triple m) ∨
          (∃ t, 2 ≤ countT ms t))) := by
  constructor
  · intro hv
    rw [port_manager_add, if_neg]
    rw [hv]
    simp
  · intro hv
    rw [port_manager_add, if_pos hv]
    cases hfc : findConflict (allMappings e.registry) ms with
    | some m =>
      simp only
      constructor
      · intro _
        have hne : findConflict (allMappings e.registry) ms ≠ none := by
          rw [hfc]
          simp
        rcases findConflict_isSome_clash ms _ hne with ⟨m2, hm2, hpos⟩ | h2
        · left
          obtain ⟨m3, hm3, ht⟩ := (countT_pos_iff _ _).1 hpos
          exact ⟨m2, hm2, m3, hm3, ht⟩
        · right
          exact h2
      · intro _
        trivial
    | none =>
      simp only
      constructor
      · intro hcontra
        rw [persistReg] at hcontra
        by_cases hp : pOk = true
        · rw [if_pos hp] at hcontra
          simp at hcontra
        · rw [if_neg hp] at hcontra
          simp at hcontra
      · intro hclash
        exfalso
        rw [findConflict_none_iff] at hfc
        apply hfc
        rcases hclash with ⟨m, hm, m2, hm2, ht⟩ | h2
        · left
          exact ⟨m, hm, (countT_pos_iff _ _).2 ⟨m2, hm2, ht⟩⟩
        · right
          exact h2

/-- Witness for the amended C5: an empty owner id is rejected as
`InvalidInput` without mutation, and a mapping clashing with the
registered `sampleA` is rejected as `Conflict`. -/
theorem add_validation_and_conflict_reporting_witness :
    port_manager_add engine0 "" "bridge0" [sampleA] true =
        (some PMError.invalidInput, engine0) ∧
      (port_manager_add engineW "api" "bridge0" [sampleB] true).1 =
        some PMError.conflict :=
  ⟨(add_validation_and_conflict_reporting engine0 "" "bridge0" [sampleA] true).1
      (by decide),
    ((add_validation_and_conflict_reporting engineW "api" "bridge0" [sampleB] true).2
        (by decide)).2
      (Or.inl ⟨sampleB, by decide, sampleA, by decide, by decide⟩)⟩

/-- C6: every mutating operation performs exactly one persist (the
persist counter advances by one) after its in-memory mutation and before
reporting success, and a successful mutation always leaves the persisted
snapshot equal to the live registry; if the persist fails the in-memory
mutation is rolled back — in particular a remove failing on storage
restores the removed Owner Entry — and the operation reports failure,
while rejected or no-op calls touch nothing. -/
theorem mutating_calls_persist_once_and_roll_back
    (e : Engine) (id net : String) (ms : List PortMapping) (pOk : Bool) :
    ((port_manager_add e id net ms pOk).1 = none →
      (port_manager_add e id net ms pOk).2.persists = e.persists + 1 ∧
        (port_manager_add e id net ms pOk).2.stored =
          (port_manager_add e id net ms pOk).2.registry) ∧
    ((port_manager_add e id net ms pOk).1 = some PMError.persistence →
      (port_manager_add e id net ms pOk).2.persists = e.persists + 1 ∧
        (port_manager_add e id net ms pOk).2.registry = e.registry ∧
        (port_manager_add e id net ms pOk).2.stored = e.stored) ∧
    (((port_manager_add e id net ms pOk).1 = some PMError.invalidInput ∨
        (port_manager_add e id net ms pOk).1 = some PMError.conflict) →
      (port_manager_add e id net ms pOk).2 = e) ∧
    ((port_manager_remove e id pOk).1 = none → findEntry e.registry id ≠ none →
      (port_manager_remove e id pOk).2.persists = e.persists + 1 ∧
        (port_manager_remove e id pOk).2.stored =
          (port_manager_remove e id pOk).2.registry) ∧
    ((port_manager_remove e id pOk).1 = none → findEntry e.registry id = none →
      (port_manager_remove e id pOk).2 = e) ∧
    ((port_manager_remove e id pOk).1 = some PMError.persistence →
      (port_manager_remove e id pOk).2.persists = e.persists + 1 ∧
        (port_manager_remove e id pOk).2.registry = e.registry ∧
        (port_manager_remove e id pOk).2.stored = e.stored) := by
  refine ⟨?_, ?_, ?_, ?_, ?_, ?_⟩
  · intro hres
    have h' : port_manager_add e id net ms pOk =
        (none, (port_manager_add e id net ms pOk).2) := by
      rw [← hres]
    obtain ⟨-, -, -, he2⟩ := add_success_elim h'
    rw [he2]
    exact ⟨rfl, rfl⟩
  · intro hres
    have h' : port_manager_add e id net ms pOk =
        (some PMError.persistence, (port_manager_add e id net ms pOk).2) := by
      rw [← hres]
    rcases add_failed_elim h' with ⟨he, -⟩ | ⟨he, -⟩ | ⟨-, -, he2⟩
    · simp at he
    · simp at he
    · rw [he2]
      exact ⟨rfl, rfl, rfl⟩
  · intro hres
    cases hres with
    | inl hres =>
      have h' : port_manager_add e id net ms pOk =
          (some PMError.invalidInput, (port_manager_add e id net ms pOk).2) := by
        rw [← hres]
      rcases add_failed_elim h' with ⟨-, he⟩ | ⟨he, -⟩ | ⟨he, -, -⟩
      · exact he
      · simp at he
      · simp at he
    | inr hres =>
      have h' : port_manager_add e id net ms pOk =
          (some PMError.conflict, (port_manager_add e id net ms pOk).2) := by
        rw [← hres]
      rcases add_failed_elim h' with ⟨he, -⟩ | ⟨-, he⟩ | ⟨he, -, -⟩
      · simp at he
      · exact he
      · simp at he
  · intro hres hf
    have h' : port_manager_remove e id pOk =
        (none, (port_manager_remove e id pOk).2) := by
      rw [← hres]
    rcases remove_success_elim h' with ⟨habs, -⟩ | ⟨-, -, he2⟩
    · exact absurd habs hf
    · rw [he2]
      exact ⟨rfl, rfl⟩
  · intro hres hf
    have h' : port_manager_remove e id pOk =
        (none, (port_manager_remove e id pOk).2) := by
      rw [← hres]
    rcases remove_success_elim h' with ⟨-, he⟩ | ⟨hne, -, -⟩
    · exact he
    · exact absurd hf hne
  · intro hres
    have h' : port_manager_remove e id pOk =
        (some PMError.persistence, (port_manager_remove e id pOk).2) := by
      rw [← hres]
    obtain ⟨-, -, -, he2⟩ := remove_failed_elim h'
    rw [he2]
    exact ⟨rfl, rfl, rfl⟩

/-- Witness for C6: a remove of the registered `web` entry whose durable
write fails increments the persist counter, restores the entry in memory
and leaves the persisted snapshot untouched. -/
theorem mutating_calls_persist_once_and_roll_back_witness :
    (port_manager_remove engineW "web" false).2.persists = engineW.persists + 1 ∧
      (port_manager_remove engineW "web" false).2.registry = engineW.registry ∧
      (port_manager_remove engineW "web" false).2.stored = engineW.stored :=
  (mutating_calls_persist_once_and_roll_back engineW "web" "bridge0" [] false).2.2.2.2.2
    (by decide)

/-- C7: `last_error_length` never fails and always returns a
non-negative integer; it returns the byte length of the calling thread's
stored message including the terminating null character, and `0` when no
message is stored. -/
theorem last_error_length_contract (slot : Option String) :
    0 ≤ last_error_length slot ∧
      (slot = none → last_error_length slot = 0) ∧
      ∀ s, slot = some s → last_error_length slot = (s.utf8ByteSize : Int) + 1 := by
  refine ⟨?_, ?_, ?_⟩
  · cases slot with
    | none =>
      simp [last_error_length]
    | some s =>
      simp only [last_error_length]
      omega
  · intro h
    subst h
    rfl
  · intro s h
    subst h
    rfl

/-- Witness for C7: a stored four-byte message reports length five
(trailing null included); an empty slot reports zero. -/
theorem last_error_length_contract_witness :
    last_error_length (some "boom") = ("boom".utf8ByteSize : Int) + 1 ∧
      last_error_length none = 0 :=
  ⟨(last_error_length_contract (some "boom")).2.2 "boom" rfl,
    (last_error_length_contract none).2.1 rfl⟩

/-- C8: `last_error_message` copies the stored UTF-8 message into the
caller buffer and returns the number of bytes written (message plus
terminating null); it returns `0` when no message is stored; it returns
the sentinel `-1` when the buffer is invalid or the capacity is below
what is required, leaving the slot untouched so that a retry with a
sufficient buffer returns the full message.  A read never mutates the
slot. -/
theorem last_error_message_contract (slot : Option String) (bufValid : Bool) (capacity : Int) :
    (slot = none → last_error_message slot bufValid capacity = (0, none, slot)) ∧
    (∀ s, slot = some s → (bufValid = false ∨ capacity < (s.utf8ByteSize : Int) + 1) →
      last_error_message slot bufValid capacity = (-1, none, slot) ∧
        last_error_message slot true ((s.utf8ByteSize : Int) + 1) =
          ((s.utf8ByteSize : Int) + 1, some s, slot)) ∧
    (∀ s, slot = some s → bufValid = true → (s.utf8ByteSize : Int) + 1 ≤ capacity →
      last_error_message slot bufValid capacity = ((s.utf8ByteSize : Int) + 1, some s, slot)) := by
  refine ⟨?_, ?_, ?_⟩
  · intro h
    subst h
    rfl
  · intro s h hbad
    subst h
    constructor
    · have hcond : (bufValid && decide ((s.utf8ByteSize : Int) + 1 ≤ capacity)) = false := by
        rcases hbad with hb | hc
        · rw [hb]
          rfl
        · have hd : decide ((s.utf8ByteSize : Int) + 1 ≤ capacity) = false := by
            rw [decide_eq_false_iff_not]
            omega
          rw [hd, Bool.and_false]
      simp [last_error_message, hcond]
    · simp [last_error_message]
  · intro s h hb hc
    subst h
    have hcond : (bufValid && decide ((s.utf8ByteSize : Int) + 1 ≤ capacity)) = true := by
      rw [hb, Bool.true_and, decide_eq_true_eq]
      exact hc
    simp [last_error_message, hcond]

/-- Witness for C8: with the message `boom` stored, a null buffer gets
the sentinel with the slot intact, a retry with the exact required
capacity returns the full message, and an empty slot returns zero. -/
theorem last_error_message_contract_witness :
    (last_error_message (some "boom") false 0 = (-1, none, some "boom") ∧
        last_error_message (some "boom") true (("boom".utf8ByteSize : Int) + 1) =
          (("boom".utf8ByteSize : Int) + 1, some "boom", some "boom")) ∧
      last_error_message none true 16 = (0, none, none) :=
  ⟨(last_error_message_contract (some "boom") false 0).2.1 "boom" rfl (Or.inl rfl),
    (last_error_message_contract none true 16).1 rfl⟩

/-- C9: a mapping whose add succeeded and whose owner was then removed
can be added again, by the same or any other owner: the remove deletes
the Owner Entry with all its mappings and releases their
`(host_ip, host_port, protocol)` claims. -/
theorem remove_frees_claimed_ports
    {e e1 e2 : Engine} {id net id2 net2 : String} {m : PortMapping}
    (h1 : port_manager_add e id net [m] true = (none, e1))
    (h2 : port_manager_remove e1 id true = (none, e2))
    (hid2 : id2 ≠ "") (hnet2 : net2 ≠ "") :
    (port_manager_add e2 id2 net2 [m] true).1 = none := by
  obtain ⟨hv, hfc, -, he1⟩ := add_success_elim h1
  have hfind : findEntry e1.registry id ≠ none := by
    rw [he1]
    exact findEntry_addEntry e.registry id net [m]
  rcases remove_success_elim h2 with ⟨habs, -⟩ | ⟨-, -, he2⟩
  · exact absurd habs hfind
  · have hreg2 : e2.registry = removeEntry e.registry id := by
      rw [he2]
      show removeEntry e1.registry id = removeEntry e.registry id
      rw [he1]
      exact removeEntry_addEntry e.registry id net [m]
    have hv2 : validInput id2 net2 [m] = true := by
      simp only [validInput, Bool.and_eq_true, decide_eq_true_eq] at hv ⊢
      exact ⟨⟨⟨hid2, hnet2⟩, by simp⟩, hv.2⟩
    have hcnt : countT (allMappings e.registry) (triple m) = 0 := by
      have hmem : (0 : Nat) < countT [m] (triple m) := countT_pos_of_mem (by simp)
      exact (findConflict_none_counts [m] _ hfc (triple m) (by omega)).1
    have hcnt2 : countT (allMappings e2.registry) (triple m) = 0 := by
      rw [hreg2]
      have := countT_removeEntry_le e.registry id (triple m)
      omega
    have hcw : conflictsWith m (allMappings e2.registry) = false :=
      (conflictsWith_eq_false_iff m _).2 hcnt2
    have hfc2 : findConflict (allMappings e2.registry) [m] = none := by
      simp [findConflict, hcw]
    rw [port_manager_add, if_pos hv2, hfc2]
    simp [persistReg]

/-- Witness for C9: add `sampleA` for `web` on a fresh engine, remove
`web`, then add `sampleA` again for `api` — the final add succeeds. -/
theorem remove_frees_claimed_ports_witness :
    (port_manager_add (⟨[], [], 2⟩ : Engine) "api" "bridge0" [sampleA] true).1 = none :=
  @remove_frees_claimed_ports engine0 engineW ⟨[], [], 2⟩ "web" "bridge0" "api" "bridge0"
    sampleA (by decide) (by decide) (by decide) (by decide)

/-- C10: `port_manager_destroy` returns no value (its result component is
the unit value), and whenever destroying the engine or cleaning up its
resources fails, it records the failure message in the calling thread's
last-error slot. -/
theorem destroy_reports_failure_via_error_slot
    (slot : Option String) (cleanupOk : Bool) (msg : String) :
    (port_manager_destroy slot cleanupOk msg).1 = () ∧
      (cleanupOk = false → (port_manager_destroy slot cleanupOk msg).2 = some msg) := by
  constructor
  · rfl
  · intro h
    subst h
    rfl

/-- Witness for C10: a failing destroy on a thread with an empty error
slot stores the cleanup failure message. -/
theorem destroy_reports_failure_via_error_slot_witness :
    (port_manager_destroy none false "cleanup failed").2 = some "cleanup failed" :=
  (destroy_reports_failure_via_error_slot none false "cleanup failed").2 rfl

end CriPort
